import Mathlib

/-!
Verification of the instrumented Redis cache (`0x02-redis_basic/exercise.py`).

The development shallowly embeds the program:

* a model of the slice of Redis the program uses (string and list values,
  `SET`/`GET`/`INCR`/`RPUSH`/`FLUSHDB`),
* the byte encodings the Redis client applies to scalar values,
* UTF-8 encoding/decoding (for `str.encode` / `bytes.decode`) and the
  Python/Redis integer parsers,
* the `Cache` class operations with the `count_calls` and `call_history`
  decorators inlined in their application order.

Machine integers are modelled as `Nat`/`Int`; the only bounded quantity is
the Redis `INCR` counter, which Redis keeps as a signed 64-bit integer and
refuses to overflow.
-/

/-- Byte strings are lists of byte values (each conceptually `< 256`). -/
abbrev Bytes := List Nat

/-! ## Decimal digits: printing and parsing -/

/-- Fueled core of the decimal printer: digits of `n` (most significant
first, as ASCII byte values) prepended to `acc`.  The fuel only bounds the
recursion depth; `natDigits` supplies enough of it. -/
def natDigitsGo : Nat → Nat → List Nat → List Nat
  | 0, _, acc => acc
  | f + 1, n, acc =>
    if n < 10 then (48 + n) :: acc
    else natDigitsGo f (n / 10) ((48 + n % 10) :: acc)

/-- ASCII bytes of the decimal representation of `n` (Python `str(n)` for a
nonnegative `n`). -/
def natDigits (n : Nat) : List Nat := natDigitsGo (n + 1) n []

/-- ASCII bytes of Python `str(n)` for an integer: decimal digits with a
leading `-` (byte 45) for negative values. -/
def intReprBytes (n : Int) : Bytes :=
  if n < 0 then 45 :: natDigits n.natAbs else natDigits n.toNat

/-- Is the byte an ASCII decimal digit? -/
def isDigitByte (b : Nat) : Prop := 48 ≤ b ∧ b ≤ 57

instance (b : Nat) : Decidable (isDigitByte b) := instDecidableAnd

/-- Plain digit-run accumulator: folds decimal digits into `acc`, failing on
any non-digit byte. -/
def natOfDigitsAux (acc : Nat) : List Nat → Option Nat
  | [] => some acc
  | c :: r => if isDigitByte c then natOfDigitsAux (acc * 10 + (c - 48)) r else none

/-- Value of a nonempty run of decimal digit bytes. -/
def natOfDigits : List Nat → Option Nat
  | [] => none
  | c :: r => if isDigitByte c then natOfDigitsAux (c - 48) r else none

/-! ## The Redis integer parser (`string2ll`)

Redis accepts exactly the canonical decimal representations of signed 64-bit
integers (no sign other than a single leading `-`, no leading zeros, no
whitespace).  We parse a sign and a digit run and then insist that the input
is the canonical rendering of the parsed value and lies in the 64-bit
range. -/

def int64Max : Int := 9223372036854775807

def int64Min : Int := -9223372036854775808

/-- Sign-and-digits parse used by `redisParseInt`. -/
def redisPlainParse : Bytes → Option Int
  | [] => none
  | c :: r =>
    if c = 45 then (natOfDigits r).map (fun m => -(m : Int))
    else (natOfDigits (c :: r)).map (fun m => (m : Int))

/-- The Redis `string2ll` check: a byte string is an integer exactly when it
is the canonical decimal form of a signed 64-bit integer. -/
def redisParseInt (b : Bytes) : Option Int :=
  match redisPlainParse b with
  | none => none
  | some n =>
    if b = intReprBytes n ∧ int64Min ≤ n ∧ n ≤ int64Max then some n else none

/-! ## The Python integer parser (`int(bytes)`)

Python `int` on a byte string strips ASCII whitespace, accepts an optional
`+`/`-` sign and a nonempty run of ASCII digits in which single underscores
may separate digits, and raises `ValueError` otherwise. -/

/-- ASCII whitespace bytes stripped by Python `int`. -/
def isWsByte (b : Nat) : Prop := b = 32 ∨ b = 9 ∨ b = 10 ∨ b = 13 ∨ b = 11 ∨ b = 12

instance (b : Nat) : Decidable (isWsByte b) := by
  unfold isWsByte; exact inferInstance

/-- Strip ASCII whitespace from both ends of a byte string. -/
def pyStrip (b : Bytes) : Bytes :=
  ((b.dropWhile fun x => decide (isWsByte x)).reverse.dropWhile
    fun x => decide (isWsByte x)).reverse

/-- Digit-run accumulator for Python `int`: like `natOfDigitsAux` but a
single underscore (byte 95) may stand between two digits. -/
def pyDigitsAux (acc : Nat) : List Nat → Option Nat
  | [] => some acc
  | c :: r =>
    if isDigitByte c then pyDigitsAux (acc * 10 + (c - 48)) r
    else if c = 95 then
      match r with
      | c2 :: r2 =>
        if isDigitByte c2 then pyDigitsAux (acc * 10 + (c2 - 48)) r2 else none
      | [] => none
    else none

/-- Value of a nonempty Python digit run (underscore grouping allowed). -/
def pyDigits : List Nat → Option Nat
  | [] => none
  | c :: r => if isDigitByte c then pyDigitsAux (c - 48) r else none

/-- Python `int(x)` for a byte string `x`: strip whitespace, optional sign,
digit run.  Returns `none` where Python raises `ValueError`. -/
def pyIntParse (b : Bytes) : Option Int :=
  match pyStrip b with
  | [] => none
  | c :: r =>
    if c = 43 then (pyDigits r).map (fun m => (m : Int))
    else if c = 45 then (pyDigits r).map (fun m => -(m : Int))
    else (pyDigits (c :: r)).map (fun m => (m : Int))

/-! ## UTF-8

`str.encode()` and `bytes.decode()` in the source use UTF-8.  We encode the
code points of a string and decode byte strings strictly (rejecting
continuation errors, overlong forms, surrogates and out-of-range values),
as CPython does. -/

/-- UTF-8 encoding of one unicode code point. -/
def utf8EncodeChar (c : Nat) : List Nat :=
  if c < 0x80 then [c]
  else if c < 0x800 then [0xC0 + c / 64, 0x80 + c % 64]
  else if c < 0x10000 then
    [0xE0 + c / 4096, 0x80 + c / 64 % 64, 0x80 + c % 64]
  else
    [0xF0 + c / 262144, 0x80 + c / 4096 % 64, 0x80 + c / 64 % 64, 0x80 + c % 64]

/-- UTF-8 encoding of a list of code points. -/
def utf8EncodeCps : List Nat → List Nat
  | [] => []
  | c :: r => utf8EncodeChar c ++ utf8EncodeCps r

/-- `s.encode()`: the UTF-8 bytes of a string. -/
def utf8Encode (s : String) : Bytes := utf8EncodeCps (s.data.map Char.toNat)

/-- Fueled core of strict UTF-8 decoding into code points; every step
consumes at least one byte and one unit of fuel, so fuel equal to the length
of the input (as supplied by `utf8DecodeCore`) always suffices.  `none`
models Python raising `UnicodeDecodeError` (continuation errors, overlong
forms, surrogates and out-of-range values are rejected, as in CPython). -/
def utf8DecodeGo : Nat → List Nat → Option (List Nat)
  | 0, [] => some []
  | 0, _ :: _ => none
  | _ + 1, [] => some []
  | f + 1, b0 :: rest =>
    if b0 < 0x80 then (utf8DecodeGo f rest).map (fun l => b0 :: l)
    else if b0 < 0xC2 then none
    else if b0 < 0xE0 then
      match rest with
      | b1 :: rest2 =>
        if 0x80 ≤ b1 ∧ b1 < 0xC0 then
          (utf8DecodeGo f rest2).map (fun l => ((b0 - 0xC0) * 64 + (b1 - 0x80)) :: l)
        else none
      | [] => none
    else if b0 < 0xF0 then
      match rest with
      | b1 :: b2 :: rest2 =>
        if 0x80 ≤ b1 ∧ b1 < 0xC0 ∧ 0x80 ≤ b2 ∧ b2 < 0xC0 then
          if (b0 - 0xE0) * 4096 + (b1 - 0x80) * 64 + (b2 - 0x80) < 0x800 ∨
             (0xD800 ≤ (b0 - 0xE0) * 4096 + (b1 - 0x80) * 64 + (b2 - 0x80) ∧
              (b0 - 0xE0) * 4096 + (b1 - 0x80) * 64 + (b2 - 0x80) < 0xE000) then
            none
          else
            (utf8DecodeGo f rest2).map
              (fun l => ((b0 - 0xE0) * 4096 + (b1 - 0x80) * 64 + (b2 - 0x80)) :: l)
        else none
      | _ => none
    else if b0 < 0xF5 then
      match rest with
      | b1 :: b2 :: b3 :: rest2 =>
        if 0x80 ≤ b1 ∧ b1 < 0xC0 ∧ 0x80 ≤ b2 ∧ b2 < 0xC0 ∧ 0x80 ≤ b3 ∧ b3 < 0xC0 then
          if (b0 - 0xF0) * 262144 + (b1 - 0x80) * 4096 + (b2 - 0x80) * 64 + (b3 - 0x80)
               < 0x10000 ∨
             0x110000 ≤
               (b0 - 0xF0) * 262144 + (b1 - 0x80) * 4096 + (b2 - 0x80) * 64 + (b3 - 0x80) then
            none
          else
            (utf8DecodeGo f rest2).map
              (fun l =>
                ((b0 - 0xF0) * 262144 + (b1 - 0x80) * 4096 + (b2 - 0x80) * 64 + (b3 - 0x80)) :: l)
        else none
      | _ => none
    else none

/-- Strict UTF-8 decoding of a byte string into code points. -/
def utf8DecodeCore (b : List Nat) : Option (List Nat) := utf8DecodeGo b.length b

/-- `b.decode()`: strict UTF-8 decoding of bytes into a string. -/
def utf8Decode (b : Bytes) : Option String :=
  (utf8DecodeCore b).map (fun l => String.mk (l.map Char.ofNat))

example : utf8Decode (utf8Encode "foo") = some "foo" := by decide
example : utf8Encode "é" = [0xC3, 0xA9] := by decide
example : utf8Decode [0xC3, 0xA9, 48] = some "é0" := by decide
example : utf8Decode [0xFF] = none := by decide
example : utf8Decode [0xC0, 0x80] = none := by decide

/-! ## Values and their serializations

`Cache.store` accepts `Union[str, bytes, int, float]`.  A Python float is
only ever serialized by the program (the Redis client sends
`repr(value).encode()`), so the model identifies a float with its `repr`
string; no floating-point arithmetic occurs anywhere in the source. -/

inductive Value where
  | text (s : String)
  | blob (b : Bytes)
  | int (n : Int)
  | float (r : String)
deriving DecidableEq

/-- The byte encoding the Redis client applies to a value before `SET`:
`str` is UTF-8 encoded, `bytes` passes through, `int` and `float` are sent
as the ASCII bytes of `repr(value)` (for `int` that is its decimal form). -/
def redisEncode : Value → Bytes
  | .text s => utf8Encode s
  | .blob b => b
  | .int n => intReprBytes n
  | .float r => utf8Encode r

/-- Single-quote character, `Char.ofNat 39`. -/
def quoteChar : Char := Char.ofNat 39

/-- Double-quote character, `Char.ofNat 34`. -/
def dquoteChar : Char := Char.ofNat 34

/-- Lower-case hex digit character. -/
def hexDigitChar (d : Nat) : Char :=
  Char.ofNat (if d < 10 then 48 + d else 87 + d)

/-- Escaping of one character inside a Python `str` repr quoted by `q`:
backslash and the quote are escaped, common control characters use their
short escapes, other control characters use a hex escape. -/
def pyEscapeChar (q : Char) (c : Char) : List Char :=
  if c = Char.ofNat 92 then [Char.ofNat 92, Char.ofNat 92]
  else if c = q then [Char.ofNat 92, q]
  else if c = Char.ofNat 10 then [Char.ofNat 92, Char.ofNat 110]
  else if c = Char.ofNat 13 then [Char.ofNat 92, Char.ofNat 114]
  else if c = Char.ofNat 9 then [Char.ofNat 92, Char.ofNat 116]
  else if c.toNat < 32 ∨ c.toNat = 127 then
    [Char.ofNat 92, Char.ofNat 120, hexDigitChar (c.toNat / 16), hexDigitChar (c.toNat % 16)]
  else [c]

/-- Python `repr` of a string: single quotes, switching to double quotes
when the text contains a single quote but no double quote.  (CPython also
hex-escapes non-printable characters above ASCII using the Unicode tables;
that refinement is irrelevant to every input considered here.) -/
def pyReprStr (s : String) : String :=
  let q := if s.data.contains quoteChar ∧ ¬ s.data.contains dquoteChar
           then dquoteChar else quoteChar
  String.mk ([q] ++ (s.data.map (pyEscapeChar q)).flatten ++ [q])

/-- Escaping of one byte inside a Python `bytes` repr quoted by `q`. -/
def pyEscapeByte (q : Char) (b : Nat) : List Char :=
  if b = 92 then [Char.ofNat 92, Char.ofNat 92]
  else if b = q.toNat then [Char.ofNat 92, q]
  else if b = 10 then [Char.ofNat 92, Char.ofNat 110]
  else if b = 13 then [Char.ofNat 92, Char.ofNat 114]
  else if b = 9 then [Char.ofNat 92, Char.ofNat 116]
  else if 32 ≤ b ∧ b < 127 then [Char.ofNat b]
  else [Char.ofNat 92, Char.ofNat 120, hexDigitChar (b / 16), hexDigitChar (b % 16)]

/-- Python `repr` of a bytes object (`b` prefix, same quote rule). -/
def pyReprBytes (b : Bytes) : String :=
  let q := if b.contains 39 ∧ ¬ b.contains 34 then dquoteChar else quoteChar
  String.mk ([Char.ofNat 98, q] ++ (b.map (pyEscapeByte q)).flatten ++ [q])

/-- Decimal string of an integer (`str(n)`, also its `repr`). -/
def intReprStr (n : Int) : String := String.mk ((intReprBytes n).map Char.ofNat)

/-- Python `repr` of a stored value. -/
def pyRepr : Value → String
  | .text s => pyReprStr s
  | .blob b => pyReprBytes b
  | .int n => intReprStr n
  | .float r => r

/-- `str(args)` for the one-element positional-argument tuple of a `store`
call: `"(" + repr(v) + ",)"`. -/
def pyStrArgs1 (v : Value) : String := "(" ++ pyRepr v ++ ",)"

example : pyStrArgs1 (.text "foo") =
    String.mk [Char.ofNat 40, Char.ofNat 39, Char.ofNat 102, Char.ofNat 111,
               Char.ofNat 111, Char.ofNat 39, Char.ofNat 44, Char.ofNat 41] := by decide

/-! ## The Redis store

Only the commands the program issues are modelled.  A Redis key holds either
a string (byte string) or a list of byte strings; `SET` overwrites any
previous value, `GET` and `RPUSH` fail on a value of the wrong type, `INCR`
interprets a string value as a canonical signed 64-bit integer and refuses
both non-integers and overflow, and `FLUSHDB` wipes the database.  `.error`
models the command raising `redis.ResponseError` in the client. -/

deriving instance DecidableEq for Except

inductive RVal where
  | str (b : Bytes)
  | list (l : List Bytes)
deriving DecidableEq

/-- The database: an association list from keys to values (most recent
binding first). -/
abbrev RedisState := List (String × RVal)

/-- Value currently stored at `k`. -/
def lookupKey (db : RedisState) (k : String) : Option RVal :=
  (db.find? (fun p => p.1 == k)).map (fun p => p.2)

/-- `SET k v` (as issued for byte-string values). -/
def redisSet (db : RedisState) (k : String) (v : RVal) : RedisState :=
  (k, v) :: db.filter (fun p => p.1 != k)

/-- `GET k`: the byte string at `k`, `none` when the key is absent, an error
on a key holding a list. -/
def redisGet (db : RedisState) (k : String) : Except String (Option Bytes) :=
  match lookupKey db k with
  | none => .ok none
  | some (.str b) => .ok (some b)
  | some (.list _) => .error "WRONGTYPE Operation against a key holding the wrong kind of value"

/-- `INCR k`: increment the integer stored at `k`, treating an absent key
as 0.  Fails on non-integer values and on 64-bit overflow. -/
def redisIncr (db : RedisState) (k : String) : Except String (Int × RedisState) :=
  match lookupKey db k with
  | none => .ok (1, redisSet db k (.str (intReprBytes 1)))
  | some (.list _) =>
    .error "WRONGTYPE Operation against a key holding the wrong kind of value"
  | some (.str b) =>
    match redisParseInt b with
    | none => .error "value is not an integer or out of range"
    | some n =>
      if n + 1 > int64Max then .error "increment or decrement would overflow"
      else .ok (n + 1, redisSet db k (.str (intReprBytes (n + 1))))

/-- `RPUSH k b`: append to the list at `k`, creating it when absent.  Fails
on a key holding a string. -/
def redisRpush (db : RedisState) (k : String) (b : Bytes) :
    Except String (Nat × RedisState) :=
  match lookupKey db k with
  | none => .ok (1, redisSet db k (.list [b]))
  | some (.list l) => .ok (l.length + 1, redisSet db k (.list (l ++ [b])))
  | some (.str _) =>
    .error "WRONGTYPE Operation against a key holding the wrong kind of value"

/-! ## The Cache class -/

/-- `method.__qualname__` of `Cache.store` (both decorators read it through
`functools.wraps`, which preserves the wrapped name). -/
def qualname : String := "Cache.store"

/-- The `count_calls` counter key, `method.__qualname__`. -/
def counterKey : String := qualname

/-- The `call_history` input-log key (an f-string appends `:inputs` to
the qualified name). -/
def inputsKey : String := qualname ++ ":inputs"

/-- The `call_history` output-log key (an f-string appends `:outputs` to
the qualified name). -/
def outputsKey : String := qualname ++ ":outputs"

/-- `Cache.__init__`: connect and `flushdb()`, wiping all prior state. -/
def Cache.initState : RedisState := []

/-- `Cache.store` with both decorators inlined, in their application order
`count_calls(call_history(store))`:
1. `count_calls` wrapper: `self._redis.incr("Cache.store")`;
2. `call_history` wrapper: `rpush("Cache.store:inputs", str(args))`;
3. the body: `key = str(uuid.uuid4()); self._redis.set(key, data)` — the
   freshly drawn UUID string is passed in as `key`;
4. `call_history` wrapper: `rpush("Cache.store:outputs", str(output))`,
   where the output is the key string itself.
Returns the key together with the new state; `.error` models an uncaught
`redis` exception aborting the call. -/
def Cache.store (db : RedisState) (key : String) (v : Value) :
    Except String (String × RedisState) :=
  match redisIncr db counterKey with
  | .error e => .error e
  | .ok (_, db1) =>
    match redisRpush db1 inputsKey (utf8Encode (pyStrArgs1 v)) with
    | .error e => .error e
    | .ok (_, db2) =>
      let db3 := redisSet db2 key (.str (redisEncode v))
      match redisRpush db3 outputsKey (utf8Encode key) with
      | .error e => .error e
      | .ok (_, db4) => .ok (key, db4)

/-- `Cache.get(key)` with `fn=None`: raw bytes, or `none` when absent. -/
def Cache.get (db : RedisState) (k : String) : Except String (Option Bytes) :=
  redisGet db k

/-- `Cache.get(key, fn)` with a decoder: the decoder is applied to the raw
bytes only when the key is present; a decoder failure propagates. -/
def Cache.getWith {α : Type} (db : RedisState) (k : String)
    (fn : Bytes → Except String α) : Except String (Option α) :=
  match redisGet db k with
  | .error e => .error e
  | .ok none => .ok none
  | .ok (some b) => (fn b).map some

/-- The `get_str` decoder, `lambda x: x.decode(...)`. -/
def pyUtf8Decoder (b : Bytes) : Except String String :=
  match utf8Decode b with
  | some s => .ok s
  | none => .error "UnicodeDecodeError"

/-- The `get_int` decoder, `lambda x: int(x)`. -/
def pyIntDecoder (b : Bytes) : Except String Int :=
  match pyIntParse b with
  | some n => .ok n
  | none => .error "ValueError: invalid literal for int with base 10"

/-- `Cache.get_str`. -/
def Cache.get_str (db : RedisState) (k : String) : Except String (Option String) :=
  Cache.getWith db k pyUtf8Decoder

/-- `Cache.get_int`. -/
def Cache.get_int (db : RedisState) (k : String) : Except String (Option Int) :=
  Cache.getWith db k pyIntDecoder

/-! ## Operation sequences -/

/-- One public operation of the component.  `store` carries the UUID string
drawn for the call; `init` is `Cache.__init__` run again on the same
database. -/
inductive Op where
  | init
  | store (key : String) (v : Value)
  | get (k : String)
  | get_str (k : String)
  | get_int (k : String)
deriving DecidableEq

/-- State transition of one operation.  Read operations keep the state; an
error models an uncaught Python exception aborting the sequence. -/
def runOp (db : RedisState) : Op → Except String RedisState
  | .init => .ok Cache.initState
  | .store key v => (Cache.store db key v).map (fun p => p.2)
  | .get k => (Cache.get db k).map (fun _ => db)
  | .get_str k => (Cache.get_str db k).map (fun _ => db)
  | .get_int k => (Cache.get_int db k).map (fun _ => db)

/-- Run a sequence of operations. -/
def runOps (db : RedisState) : List Op → Except String RedisState
  | [] => .ok db
  | op :: ops =>
    match runOp db op with
    | .error e => .error e
    | .ok db1 => runOps db1 ops

/-- A UUID key is distinct from the three instrumentation keys (a
`uuid.uuid4()` string is 36 hex-and-dash characters, never one of them;
the spec flags the residual collision risk among data keys as unhandled,
but those collisions do not involve the keys below). -/
def freshKey (k : String) : Prop :=
  k ≠ counterKey ∧ k ≠ inputsKey ∧ k ≠ outputsKey

instance (k : String) : Decidable (freshKey k) := by
  unfold freshKey; exact inferInstance

/-- Validity of one operation: a `store` uses a fresh UUID key. -/
def validOp : Op → Prop
  | .store k _ => freshKey k
  | _ => True

instance : (op : Op) → Decidable (validOp op)
  | .init => isTrue trivial
  | .store k _ => (inferInstance : Decidable (freshKey k))
  | .get _ => isTrue trivial
  | .get_str _ => isTrue trivial
  | .get_int _ => isTrue trivial

/-- The keys returned by the `store` calls of a sequence. -/
def storeKeys (ops : List Op) : List String :=
  ops.filterMap (fun op => match op with | .store k _ => some k | _ => none)

/-! ## Observables -/

/-- The persistent call counter for `store`, as a caller reads it back:
the integer decoded from the bytes at `"Cache.store"`, 0 when absent or
undecodable. -/
def storeCount (db : RedisState) : Int :=
  match lookupKey db counterKey with
  | some (.str b) => (pyIntParse b).getD 0
  | _ => 0

/-- The entries of a history log list, `[]` when the key is absent. -/
def logEntries (db : RedisState) (k : String) : List Bytes :=
  match lookupKey db k with
  | some (.list l) => l
  | _ => []

example : Cache.store Cache.initState "k1" (.text "foo") =
    .ok ("k1",
      [(outputsKey, .list [[107, 49]]),
       ("k1", .str [102, 111, 111]),
       (inputsKey, .list [[40, 39, 102, 111, 111, 39, 44, 41]]),
       (counterKey, .str [49])]) := by decide

example : natDigits 0 = [48] := by decide
example : natDigits 907 = [57, 48, 55] := by decide
example : pyIntParse (intReprBytes (-120)) = some (-120) := by decide
example : redisParseInt [49, 50] = some 12 := by decide
example : redisParseInt [48, 50] = none := by decide
example : pyIntParse [102, 111, 111] = none := by decide
example : pyIntParse [32, 49, 95, 50, 32] = some 12 := by decide

/-! ## Lemmas: the association-list database -/

theorem lookupKey_set_self (db : RedisState) (k : String) (v : RVal) :
    lookupKey (redisSet db k v) k = some v := by
  simp [lookupKey, redisSet]

theorem find_filter_ne (db : RedisState) (k k2 : String) (h : k2 ≠ k) :
    (db.filter (fun p => p.1 != k)).find? (fun p => p.1 == k2) =
      db.find? (fun p => p.1 == k2) := by
  induction db with
  | nil => rfl
  | cons a l ih =>
    by_cases ha : a.1 = k
    · have h2 : ¬ (a.1 == k2) = true := by simp [ha]; exact fun hc => h hc.symm
      rw [List.filter_cons_of_neg (by simp [ha]), ih]
      exact (@List.find?_cons_of_neg _ (fun p => p.1 == k2) a l h2).symm
    · rw [List.filter_cons_of_pos (by simp [ha])]
      by_cases hb : a.1 = k2
      · have e1 : List.find? (fun p => p.1 == k2) (a :: l.filter (fun p => p.1 != k)) =
            some a := List.find?_cons_of_pos _ (by simp [hb])
        have e2 : List.find? (fun p => p.1 == k2) (a :: l) = some a :=
          List.find?_cons_of_pos _ (by simp [hb])
        rw [e1, e2]
      · have e1 : List.find? (fun p => p.1 == k2) (a :: l.filter (fun p => p.1 != k)) =
            List.find? (fun p => p.1 == k2) (l.filter (fun p => p.1 != k)) :=
          List.find?_cons_of_neg _ (by simp [hb])
        have e2 : List.find? (fun p => p.1 == k2) (a :: l) =
            List.find? (fun p => p.1 == k2) l :=
          List.find?_cons_of_neg _ (by simp [hb])
        rw [e1, e2, ih]

theorem lookupKey_set_ne (db : RedisState) (k k2 : String) (v : RVal)
    (h : k2 ≠ k) : lookupKey (redisSet db k v) k2 = lookupKey db k2 := by
  have h2 : (k == k2) = false := by simp; exact fun hc => h hc.symm
  simp only [lookupKey, redisSet, List.find?_cons, h2]
  rw [find_filter_ne db k k2 h]

/-! ## Lemmas: decimal printing and parsing -/

theorem natDigitsGo_acc (f : Nat) : ∀ n acc,
    natDigitsGo f n acc = natDigitsGo f n [] ++ acc := by
  induction f with
  | zero => intro n acc; rfl
  | succ f ih =>
    intro n acc
    by_cases h : n < 10
    · simp [natDigitsGo, h]
    · simp only [natDigitsGo, if_neg h]
      rw [ih (n / 10) ((48 + n % 10) :: acc), ih (n / 10) [48 + n % 10]]
      simp

theorem natDigitsGo_fuel (f : Nat) : ∀ g n, n < f → n < g →
    natDigitsGo f n [] = natDigitsGo g n [] := by
  induction f with
  | zero => intro g n h; omega
  | succ f ih =>
    intro g n hf hg
    match g with
    | 0 => omega
    | g + 1 =>
      by_cases h : n < 10
      · simp [natDigitsGo, h]
      · simp only [natDigitsGo, if_neg h]
        rw [natDigitsGo_acc f, natDigitsGo_acc g]
        rw [ih g (n / 10) (by omega) (by omega)]

theorem natDigits_unfold (n : Nat) :
    natDigits n = if n < 10 then [48 + n] else natDigits (n / 10) ++ [48 + n % 10] := by
  by_cases h : n < 10
  · simp [natDigits, natDigitsGo, h]
  · rw [if_neg h]
    have step : natDigits n = natDigitsGo n (n / 10) [48 + n % 10] := by
      conv_lhs => rw [natDigits, natDigitsGo]
      rw [if_neg h]
    rw [step, natDigitsGo_acc n,
      natDigitsGo_fuel n (n / 10 + 1) (n / 10) (by omega) (by omega)]
    rfl

theorem natDigits_digits (n : Nat) : ∀ b ∈ natDigits n, 48 ≤ b ∧ b ≤ 57 := by
  induction n using Nat.strong_induction_on with
  | _ n ih =>
    intro b hb
    rw [natDigits_unfold] at hb
    by_cases h : n < 10
    · rw [if_pos h] at hb
      simp at hb
      omega
    · rw [if_neg h] at hb
      rcases List.mem_append.mp hb with h1 | h1
      · exact ih (n / 10) (by omega) b h1
      · simp at h1; omega

theorem natDigits_ne_nil (n : Nat) : natDigits n ≠ [] := by
  rw [natDigits_unfold]
  by_cases h : n < 10
  · simp [h]
  · simp [h]

theorem natDigits_foldl (n : Nat) : ∀ acc,
    (natDigits n).foldl (fun a b => a * 10 + (b - 48)) acc =
      acc * 10 ^ (natDigits n).length + n := by
  induction n using Nat.strong_induction_on with
  | _ n ih =>
    intro acc
    rw [natDigits_unfold]
    by_cases h : n < 10
    · simp [if_pos h]
    · rw [if_neg h, List.foldl_append, ih (n / 10) (by omega) acc]
      simp only [List.foldl_cons, List.foldl_nil, List.length_append,
        List.length_cons, List.length_nil]
      have h48 : 48 + n % 10 - 48 = n % 10 := by omega
      rw [h48, pow_succ]
      have : acc * (10 ^ (natDigits (n / 10)).length * 10) =
          acc * 10 ^ (natDigits (n / 10)).length * 10 := by ring
      rw [this]
      omega

theorem natOfDigitsAux_digits : ∀ (l : List Nat) (acc : Nat),
    (∀ b ∈ l, isDigitByte b) →
    natOfDigitsAux acc l = some (l.foldl (fun a b => a * 10 + (b - 48)) acc) := by
  intro l
  induction l with
  | nil => intro acc _; rfl
  | cons c r ih =>
    intro acc h
    have hc : isDigitByte c := h c (by simp)
    simp only [natOfDigitsAux, if_pos hc, List.foldl_cons]
    exact ih (acc * 10 + (c - 48)) (fun b hb => h b (by simp [hb]))

theorem pyDigitsAux_digits : ∀ (l : List Nat) (acc : Nat),
    (∀ b ∈ l, isDigitByte b) →
    pyDigitsAux acc l = some (l.foldl (fun a b => a * 10 + (b - 48)) acc) := by
  intro l
  induction l with
  | nil => intro acc _; rfl
  | cons c r ih =>
    intro acc h
    have hc : isDigitByte c := h c (by simp)
    have step : pyDigitsAux acc (c :: r) = pyDigitsAux (acc * 10 + (c - 48)) r := by
      conv_lhs => rw [pyDigitsAux.eq_def]
      simp only [if_pos hc]
    rw [step, List.foldl_cons]
    exact ih (acc * 10 + (c - 48)) (fun b hb => h b (by simp [hb]))

theorem natDigits_head_cons (n : Nat) :
    ∃ c r, natDigits n = c :: r ∧ isDigitByte c := by
  match h : natDigits n with
  | [] => exact absurd h (natDigits_ne_nil n)
  | c :: r =>
    refine ⟨c, r, rfl, ?_⟩
    have := natDigits_digits n c (by rw [h]; simp)
    exact this

theorem natOfDigits_natDigits (n : Nat) : natOfDigits (natDigits n) = some n := by
  obtain ⟨c, r, hcr, hc⟩ := natDigits_head_cons n
  have hall : ∀ b ∈ r, isDigitByte b := by
    intro b hb
    exact natDigits_digits n b (by rw [hcr]; simp [hb])
  rw [hcr]
  simp only [natOfDigits, if_pos hc]
  rw [natOfDigitsAux_digits r (c - 48) hall]
  have hfold := natDigits_foldl n 0
  rw [hcr] at hfold
  simp only [List.foldl_cons, Nat.zero_mul, Nat.zero_add] at hfold
  rw [hfold]

theorem pyDigits_natDigits (n : Nat) : pyDigits (natDigits n) = some n := by
  obtain ⟨c, r, hcr, hc⟩ := natDigits_head_cons n
  have hall : ∀ b ∈ r, isDigitByte b := by
    intro b hb
    exact natDigits_digits n b (by rw [hcr]; simp [hb])
  rw [hcr]
  simp only [pyDigits, if_pos hc]
  rw [pyDigitsAux_digits r (c - 48) hall]
  have hfold := natDigits_foldl n 0
  rw [hcr] at hfold
  simp only [List.foldl_cons, Nat.zero_mul, Nat.zero_add] at hfold
  rw [hfold]

theorem isWsByte_lt_48 (b : Nat) (h : isWsByte b) : b < 48 := by
  rcases h with h | h | h | h | h | h <;> omega

theorem dropWhileWs_of_head (l : List Nat) (h : ∀ b ∈ l, ¬ isWsByte b) :
    l.dropWhile (fun x => decide (isWsByte x)) = l := by
  cases l with
  | nil => rfl
  | cons c r =>
    have hc : decide (isWsByte c) = false := by
      simp only [decide_eq_false_iff_not]
      exact h c (by simp)
    simp [List.dropWhile_cons, hc]

theorem pyStrip_id (l : List Nat) (h : ∀ b ∈ l, ¬ isWsByte b) : pyStrip l = l := by
  unfold pyStrip
  rw [dropWhileWs_of_head l h]
  rw [dropWhileWs_of_head l.reverse (fun b hb => h b (List.mem_reverse.mp hb))]
  exact List.reverse_reverse l

theorem natDigits_not_ws (n : Nat) : ∀ b ∈ natDigits n, ¬ isWsByte b := by
  intro b hb hws
  have := natDigits_digits n b hb
  have := isWsByte_lt_48 b hws
  omega

/-- Python `int` inverts `str` on every integer. -/
theorem pyIntParse_intRepr (n : Int) : pyIntParse (intReprBytes n) = some n := by
  by_cases hn : n < 0
  · have hrepr : intReprBytes n = 45 :: natDigits n.natAbs := by
      simp [intReprBytes, if_pos hn]
    have hstrip : pyStrip (45 :: natDigits n.natAbs) = 45 :: natDigits n.natAbs := by
      refine pyStrip_id _ ?_
      intro b hb
      rcases List.mem_cons.mp hb with h | h
      · intro hws; rcases hws with h2 | h2 | h2 | h2 | h2 | h2 <;> omega
      · exact natDigits_not_ws _ b h
    rw [hrepr]
    unfold pyIntParse
    rw [hstrip]
    simp [pyDigits_natDigits, abs_of_neg hn]
  · have hrepr : intReprBytes n = natDigits n.toNat := by
      simp [intReprBytes, if_neg hn]
    have hstrip : pyStrip (natDigits n.toNat) = natDigits n.toNat :=
      pyStrip_id _ (natDigits_not_ws _)
    obtain ⟨c, r, hcr, hc1, hc2⟩ := natDigits_head_cons n.toNat
    have hne1 : ¬ c = 43 := by omega
    have hne2 : ¬ c = 45 := by omega
    rw [hrepr]
    unfold pyIntParse
    rw [hstrip, hcr]
    simp only [hne1, hne2, if_false, reduceCtorEq, ite_false]
    rw [← hcr, pyDigits_natDigits]
    simp
    omega

/-- The sign-and-digit parse inverts the decimal printer on every integer. -/
theorem redisPlainParse_intRepr (n : Int) : redisPlainParse (intReprBytes n) = some n := by
  by_cases hn : n < 0
  · have hrepr : intReprBytes n = 45 :: natDigits n.natAbs := by
      simp [intReprBytes, if_pos hn]
    rw [hrepr]
    unfold redisPlainParse
    simp [natOfDigits_natDigits, abs_of_neg hn]
  · have hrepr : intReprBytes n = natDigits n.toNat := by
      simp [intReprBytes, if_neg hn]
    obtain ⟨c, r, hcr, hc1, hc2⟩ := natDigits_head_cons n.toNat
    have hne2 : ¬ c = 45 := by omega
    rw [hrepr]
    unfold redisPlainParse
    rw [hcr]
    simp only [hne2, if_false, reduceCtorEq, ite_false]
    rw [← hcr, natOfDigits_natDigits]
    simp
    omega

/-- The Redis integer parser accepts the canonical decimal form of every
in-range integer. -/
theorem redisParseInt_intRepr (n : Int) (h1 : int64Min ≤ n) (h2 : n ≤ int64Max) :
    redisParseInt (intReprBytes n) = some n := by
  simp [redisParseInt, redisPlainParse_intRepr, h1, h2]

/-- The Redis integer parser rejects out-of-range integers. -/
theorem redisParseInt_intRepr_none (n : Int) (h : ¬ (int64Min ≤ n ∧ n ≤ int64Max)) :
    redisParseInt (intReprBytes n) = none := by
  simp only [redisParseInt, redisPlainParse_intRepr]
  rw [if_neg]
  rintro ⟨-, hA, hB⟩
  exact h ⟨hA, hB⟩

/-! ## Lemmas: UTF-8 round trip -/

theorem utf8DecodeGo_encodeChar (c : Nat) (hv : Nat.isValidChar c) (f : Nat)
    (bs : List Nat) :
    utf8DecodeGo (f + 1) (utf8EncodeChar c ++ bs) =
      (utf8DecodeGo f bs).map (fun l => c :: l) := by
  by_cases h1 : c < 0x80
  · have henc : utf8EncodeChar c = [c] := by simp [utf8EncodeChar, if_pos h1]
    rw [henc]
    simp only [List.cons_append, List.nil_append]
    conv_lhs => rw [utf8DecodeGo.eq_def]
    simp only [if_pos h1]
  · by_cases h2 : c < 0x800
    · have henc : utf8EncodeChar c = [0xC0 + c / 64, 0x80 + c % 64] := by
        simp [utf8EncodeChar, if_neg h1, if_pos h2]
      rw [henc]
      simp only [List.cons_append, List.nil_append]
      conv_lhs => rw [utf8DecodeGo.eq_def]
      have e2 : ¬ (0xC0 + c / 64 < 0x80) := by omega
      have e3 : ¬ (0xC0 + c / 64 < 0xC2) := by omega
      have e4 : 0xC0 + c / 64 < 0xE0 := by omega
      have e5 : 0x80 ≤ 0x80 + c % 64 ∧ 0x80 + c % 64 < 0xC0 := by omega
      simp only [if_neg e2, if_neg e3, if_pos e4, if_pos e5]
      rw [show (0xC0 + c / 64 - 0xC0) * 64 + (0x80 + c % 64 - 0x80) = c from by omega]
    · by_cases h3 : c < 0x10000
      · have henc : utf8EncodeChar c =
            [0xE0 + c / 4096, 0x80 + c / 64 % 64, 0x80 + c % 64] := by
          simp [utf8EncodeChar, if_neg h1, if_neg h2, if_pos h3]
        rw [henc]
        simp only [List.cons_append, List.nil_append]
        conv_lhs => rw [utf8DecodeGo.eq_def]
        have e2 : ¬ (0xE0 + c / 4096 < 0x80) := by omega
        have e3 : ¬ (0xE0 + c / 4096 < 0xC2) := by omega
        have e4 : ¬ (0xE0 + c / 4096 < 0xE0) := by omega
        have e5 : 0xE0 + c / 4096 < 0xF0 := by omega
        have e6 : 0x80 ≤ 0x80 + c / 64 % 64 ∧ 0x80 + c / 64 % 64 < 0xC0 ∧
            0x80 ≤ 0x80 + c % 64 ∧ 0x80 + c % 64 < 0xC0 := by omega
        simp only [if_neg e2, if_neg e3, if_neg e4, if_pos e5, if_pos e6]
        rw [show (0xE0 + c / 4096 - 0xE0) * 4096 + (0x80 + c / 64 % 64 - 0x80) * 64 +
            (0x80 + c % 64 - 0x80) = c from by omega]
        rw [if_neg (by rcases hv with h | h <;> omega)]
      · have h4 : c < 0x110000 := by rcases hv with h | h <;> omega
        have henc : utf8EncodeChar c =
            [0xF0 + c / 262144, 0x80 + c / 4096 % 64, 0x80 + c / 64 % 64,
             0x80 + c % 64] := by
          simp [utf8EncodeChar, if_neg h1, if_neg h2, if_neg h3]
        rw [henc]
        simp only [List.cons_append, List.nil_append]
        conv_lhs => rw [utf8DecodeGo.eq_def]
        have e2 : ¬ (0xF0 + c / 262144 < 0x80) := by omega
        have e3 : ¬ (0xF0 + c / 262144 < 0xC2) := by omega
        have e4 : ¬ (0xF0 + c / 262144 < 0xE0) := by omega
        have e5 : ¬ (0xF0 + c / 262144 < 0xF0) := by omega
        have e6 : 0xF0 + c / 262144 < 0xF5 := by omega
        have e7 : 0x80 ≤ 0x80 + c / 4096 % 64 ∧ 0x80 + c / 4096 % 64 < 0xC0 ∧
            0x80 ≤ 0x80 + c / 64 % 64 ∧ 0x80 + c / 64 % 64 < 0xC0 ∧
            0x80 ≤ 0x80 + c % 64 ∧ 0x80 + c % 64 < 0xC0 := by omega
        simp only [if_neg e2, if_neg e3, if_neg e4, if_neg e5, if_pos e6, if_pos e7]
        rw [show (0xF0 + c / 262144 - 0xF0) * 262144 + (0x80 + c / 4096 % 64 - 0x80) * 4096 +
            (0x80 + c / 64 % 64 - 0x80) * 64 + (0x80 + c % 64 - 0x80) = c from by omega]
        rw [if_neg (by omega)]

theorem utf8DecodeGo_nil (f : Nat) : utf8DecodeGo f [] = some [] := by
  cases f <;> rfl

theorem utf8DecodeGo_encodeCps : ∀ (l : List Nat) (f : Nat),
    (∀ c ∈ l, Nat.isValidChar c) →
    utf8DecodeGo (l.length + f) (utf8EncodeCps l) = some l := by
  intro l
  induction l with
  | nil => intro f _; simpa using utf8DecodeGo_nil f
  | cons c r ih =>
    intro f h
    show utf8DecodeGo (r.length + 1 + f) (utf8EncodeChar c ++ utf8EncodeCps r) = _
    rw [show r.length + 1 + f = (r.length + f) + 1 from by omega]
    rw [utf8DecodeGo_encodeChar c (h c (by simp)) _ _,
      ih f (fun x hx => h x (by simp [hx]))]
    rfl

theorem length_utf8EncodeChar_pos (c : Nat) : 1 ≤ (utf8EncodeChar c).length := by
  unfold utf8EncodeChar
  split_ifs <;> simp

theorem length_le_length_encodeCps : ∀ l : List Nat,
    l.length ≤ (utf8EncodeCps l).length := by
  intro l
  induction l with
  | nil => simp
  | cons c r ih =>
    show r.length + 1 ≤ (utf8EncodeChar c ++ utf8EncodeCps r).length
    rw [List.length_append]
    have := length_utf8EncodeChar_pos c
    omega

theorem utf8DecodeCore_encodeCps (l : List Nat) (h : ∀ c ∈ l, Nat.isValidChar c) :
    utf8DecodeCore (utf8EncodeCps l) = some l := by
  unfold utf8DecodeCore
  have hle := length_le_length_encodeCps l
  rw [show (utf8EncodeCps l).length = l.length + ((utf8EncodeCps l).length - l.length)
    from by omega]
  exact utf8DecodeGo_encodeCps l _ h

theorem map_ofNat_map_toNat (l : List Char) :
    (l.map Char.toNat).map Char.ofNat = l := by
  induction l with
  | nil => rfl
  | cons a t ih => simp [ih, Char.ofNat_toNat]

/-- `bytes.decode()` inverts `str.encode()` on every string. -/
theorem utf8Decode_utf8Encode (s : String) : utf8Decode (utf8Encode s) = some s := by
  unfold utf8Decode utf8Encode
  rw [utf8DecodeCore_encodeCps]
  · show some (String.mk ((s.data.map Char.toNat).map Char.ofNat)) = some s
    rw [map_ofNat_map_toNat]
  · intro cp hcp
    obtain ⟨ch, hch, rfl⟩ := List.mem_map.mp hcp
    exact ch.valid

/-! ## Lemmas: the instrumented store -/

/-- The value the counter key holds after `n` completed `store` calls:
absent for 0, otherwise the decimal bytes of `n`. -/
def counterVal (n : Nat) : Option RVal :=
  if n = 0 then none else some (.str (intReprBytes (n : Int)))

/-- The value a history key holds when its log is `l`: absent when empty
(RPUSH creates the list on first use), otherwise the list itself. -/
def listVal (l : List Bytes) : Option RVal :=
  if l = [] then none else some (.list l)

theorem redisGet_of_str (db : RedisState) (k : String) (b : Bytes)
    (h : lookupKey db k = some (.str b)) : redisGet db k = .ok (some b) := by
  simp [redisGet, h]

theorem redisGet_of_none (db : RedisState) (k : String)
    (h : lookupKey db k = none) : redisGet db k = .ok none := by
  simp [redisGet, h]

theorem rpush_listVal (db : RedisState) (k : String) (l : List Bytes) (b : Bytes)
    (h : lookupKey db k = listVal l) :
    redisRpush db k b = .ok (l.length + 1, redisSet db k (.list (l ++ [b]))) := by
  cases l with
  | nil =>
    have h0 : lookupKey db k = none := by simpa [listVal] using h
    simp [redisRpush, h0]
  | cons x xs =>
    have h1 : lookupKey db k = some (.list (x :: xs)) := by
      simpa [listVal] using h
    simp [redisRpush, h1]

theorem incr_counterVal (db : RedisState) (n : Nat)
    (hc : lookupKey db counterKey = counterVal n)
    (hn : (n : Int) + 1 ≤ int64Max) :
    redisIncr db counterKey =
      .ok ((n : Int) + 1,
        redisSet db counterKey (.str (intReprBytes ((n : Int) + 1)))) := by
  cases n with
  | zero =>
    have h0 : lookupKey db counterKey = none := by simpa [counterVal] using hc
    simp [redisIncr, h0]
  | succ m =>
    have h1 : lookupKey db counterKey =
        some (.str (intReprBytes ((m + 1 : Nat) : Int))) := by
      simpa [counterVal] using hc
    have hparse : redisParseInt (intReprBytes ((m + 1 : Nat) : Int)) =
        some ((m + 1 : Nat) : Int) := by
      apply redisParseInt_intRepr
      · simp [int64Min]; omega
      · omega
    simp only [redisIncr, h1, hparse]
    rw [if_neg (by omega)]

/-- The database after a successful `Cache.store` on a state whose counter
and logs have the canonical shapes. -/
def storePost (db : RedisState) (key : String) (v : Value) (n : Nat)
    (ins outs : List Bytes) : RedisState :=
  redisSet
    (redisSet
      (redisSet (redisSet db counterKey (.str (intReprBytes ((n : Int) + 1))))
        inputsKey (.list (ins ++ [utf8Encode (pyStrArgs1 v)])))
      key (.str (redisEncode v)))
    outputsKey (.list (outs ++ [utf8Encode key]))

theorem store_step (db : RedisState) (key : String) (v : Value) (n : Nat)
    (ins outs : List Bytes)
    (hk : freshKey key)
    (hc : lookupKey db counterKey = counterVal n)
    (hi : lookupKey db inputsKey = listVal ins)
    (ho : lookupKey db outputsKey = listVal outs)
    (hn : (n : Int) + 1 ≤ int64Max) :
    Cache.store db key v = .ok (key, storePost db key v n ins outs) := by
  obtain ⟨hk1, hk2, hk3⟩ := hk
  have hincr := incr_counterVal db n hc hn
  have hrp1 : redisRpush (redisSet db counterKey (.str (intReprBytes ((n : Int) + 1))))
      inputsKey (utf8Encode (pyStrArgs1 v)) =
      .ok (ins.length + 1,
        redisSet (redisSet db counterKey (.str (intReprBytes ((n : Int) + 1))))
          inputsKey (.list (ins ++ [utf8Encode (pyStrArgs1 v)]))) := by
    apply rpush_listVal
    rw [lookupKey_set_ne _ _ _ _ (by decide : inputsKey ≠ counterKey)]
    exact hi
  have hrp2 : redisRpush
      (redisSet
        (redisSet (redisSet db counterKey (.str (intReprBytes ((n : Int) + 1))))
          inputsKey (.list (ins ++ [utf8Encode (pyStrArgs1 v)])))
        key (.str (redisEncode v)))
      outputsKey (utf8Encode key) =
      .ok (outs.length + 1, storePost db key v n ins outs) := by
    apply rpush_listVal
    rw [lookupKey_set_ne _ _ _ _ (Ne.symm hk3)]
    rw [lookupKey_set_ne _ _ _ _ (by decide : outputsKey ≠ inputsKey)]
    rw [lookupKey_set_ne _ _ _ _ (by decide : outputsKey ≠ counterKey)]
    exact ho
  simp only [Cache.store, hincr, hrp1, hrp2]

theorem storePost_lookup (db : RedisState) (key : String) (v : Value) (n : Nat)
    (ins outs : List Bytes) (hk : freshKey key) :
    lookupKey (storePost db key v n ins outs) counterKey = counterVal (n + 1) ∧
    lookupKey (storePost db key v n ins outs) inputsKey =
      listVal (ins ++ [utf8Encode (pyStrArgs1 v)]) ∧
    lookupKey (storePost db key v n ins outs) outputsKey =
      listVal (outs ++ [utf8Encode key]) ∧
    lookupKey (storePost db key v n ins outs) key = some (.str (redisEncode v)) ∧
    ∀ k2, k2 ≠ key → k2 ≠ counterKey → k2 ≠ inputsKey → k2 ≠ outputsKey →
      lookupKey (storePost db key v n ins outs) k2 = lookupKey db k2 := by
  obtain ⟨hk1, hk2, hk3⟩ := hk
  unfold storePost
  refine ⟨?_, ?_, ?_, ?_, ?_⟩
  · rw [lookupKey_set_ne _ _ _ _ (by decide : counterKey ≠ outputsKey),
      lookupKey_set_ne _ _ _ _ (Ne.symm hk1),
      lookupKey_set_ne _ _ _ _ (by decide : counterKey ≠ inputsKey),
      lookupKey_set_self]
    have : ((n + 1 : Nat) : Int) = (n : Int) + 1 := by push_cast; ring
    simp [counterVal, this]
  · rw [lookupKey_set_ne _ _ _ _ (by decide : inputsKey ≠ outputsKey),
      lookupKey_set_ne _ _ _ _ (Ne.symm hk2),
      lookupKey_set_self]
    have hne : ins ++ [utf8Encode (pyStrArgs1 v)] ≠ [] := by simp
    simp [listVal, hne]
  · rw [lookupKey_set_self]
    have hne : outs ++ [utf8Encode key] ≠ [] := by simp
    simp [listVal, hne]
  · rw [lookupKey_set_ne _ _ _ _ hk3, lookupKey_set_self]
  · intro k2 h1 h2 h3 h4
    rw [lookupKey_set_ne _ _ _ _ h4, lookupKey_set_ne _ _ _ _ h1,
      lookupKey_set_ne _ _ _ _ h3, lookupKey_set_ne _ _ _ _ h2]

/-- When the counter would overflow the signed 64-bit range, `INCR` fails
and the whole `store` call raises before touching anything. -/
theorem store_overflow (db : RedisState) (key : String) (v : Value) (n : Nat)
    (hc : lookupKey db counterKey = counterVal n)
    (hn : ¬ ((n : Int) + 1 ≤ int64Max)) :
    ∃ e, Cache.store db key v = .error e := by
  cases n with
  | zero => exfalso; simp [int64Max] at hn
  | succ m =>
    have h1 : lookupKey db counterKey =
        some (.str (intReprBytes ((m + 1 : Nat) : Int))) := by
      simpa [counterVal] using hc
    by_cases hr : ((m + 1 : Nat) : Int) ≤ int64Max
    · have hparse : redisParseInt (intReprBytes ((m + 1 : Nat) : Int)) =
          some ((m + 1 : Nat) : Int) := by
        apply redisParseInt_intRepr
        · simp [int64Min]; omega
        · exact hr
      refine ⟨"increment or decrement would overflow", ?_⟩
      have hincr : redisIncr db counterKey =
          .error "increment or decrement would overflow" := by
        simp only [redisIncr, h1, hparse]
        rw [if_pos (by omega)]
      simp only [Cache.store, hincr]
    · have hparse : redisParseInt (intReprBytes ((m + 1 : Nat) : Int)) = none := by
        apply redisParseInt_intRepr_none
        rintro ⟨-, hB⟩
        exact hr hB
      refine ⟨"value is not an integer or out of range", ?_⟩
      have hincr : redisIncr db counterKey =
          .error "value is not an integer or out of range" := by
        simp only [redisIncr, h1, hparse]
      simp only [Cache.store, hincr]

/-! ## Lemmas: operation sequences -/

/-- Canonical shape of the instrumentation state: the counter holds the
decimal bytes of `n` (absent for 0) and the two history logs hold lists of
equal length `n` (absent when empty). -/
def StoreInv (db : RedisState) : Prop :=
  ∃ n ins outs, ins.length = n ∧ outs.length = n ∧
    lookupKey db counterKey = counterVal n ∧
    lookupKey db inputsKey = listVal ins ∧
    lookupKey db outputsKey = listVal outs

theorem storeInv_init : StoreInv Cache.initState := by
  refine ⟨0, [], [], rfl, rfl, ?_, ?_, ?_⟩ <;> rfl

/-- The read operations of the component. -/
def isReadOp : Op → Prop
  | .get _ => True
  | .get_str _ => True
  | .get_int _ => True
  | _ => False

instance : (op : Op) → Decidable (isReadOp op)
  | .init => isFalse (fun h => h)
  | .store _ _ => isFalse (fun h => h)
  | .get _ => isTrue trivial
  | .get_str _ => isTrue trivial
  | .get_int _ => isTrue trivial

theorem runOp_read_eq (db : RedisState) (op : Op) (db1 : RedisState)
    (hr : isReadOp op) (h : runOp db op = .ok db1) : db1 = db := by
  cases op with
  | init => exact absurd hr (fun h => h)
  | store key v => exact absurd hr (fun h => h)
  | get k =>
    cases hg : Cache.get db k with
    | error e => rw [runOp, hg] at h; cases h
    | ok o => rw [runOp, hg] at h; cases h; rfl
  | get_str k =>
    cases hg : Cache.get_str db k with
    | error e => rw [runOp, hg] at h; cases h
    | ok o => rw [runOp, hg] at h; cases h; rfl
  | get_int k =>
    cases hg : Cache.get_int db k with
    | error e => rw [runOp, hg] at h; cases h
    | ok o => rw [runOp, hg] at h; cases h; rfl

theorem runOp_ok_inv (db : RedisState) (op : Op) (db1 : RedisState)
    (hv : validOp op) (hinv : StoreInv db) (h : runOp db op = .ok db1) :
    StoreInv db1 ∧
    ∀ k, freshKey k → (∀ v, op ≠ .store k v) →
      lookupKey db k = none → lookupKey db1 k = none := by
  cases op with
  | init =>
    rw [runOp] at h
    cases h
    exact ⟨storeInv_init, fun k _ _ _ => rfl⟩
  | store key v =>
    have hk : freshKey key := hv
    obtain ⟨n, ins, outs, hli, hlo, hc, hi, ho⟩ := hinv
    by_cases hb : (n : Int) + 1 ≤ int64Max
    · have hst := store_step db key v n ins outs hk hc hi ho hb
      rw [runOp, hst] at h
      cases h
      obtain ⟨pc, pi, po, pk, pframe⟩ := storePost_lookup db key v n ins outs hk
      constructor
      · exact ⟨n + 1, ins ++ [utf8Encode (pyStrArgs1 v)], outs ++ [utf8Encode key],
          by simp [hli], by simp [hlo], pc, pi, po⟩
      · intro k hfk hne hnone
        have hkne : k ≠ key := by
          intro he
          exact hne v (by rw [he])
        obtain ⟨f1, f2, f3⟩ := hfk
        rw [pframe k hkne f1 f2 f3]
        exact hnone
    · obtain ⟨e, he⟩ := store_overflow db key v n hc hb
      rw [runOp, he] at h
      cases h
  | get k2 =>
    have := runOp_read_eq db (.get k2) db1 trivial h
    subst this
    exact ⟨hinv, fun k _ _ hn => hn⟩
  | get_str k2 =>
    have := runOp_read_eq db (.get_str k2) db1 trivial h
    subst this
    exact ⟨hinv, fun k _ _ hn => hn⟩
  | get_int k2 =>
    have := runOp_read_eq db (.get_int k2) db1 trivial h
    subst this
    exact ⟨hinv, fun k _ _ hn => hn⟩

theorem runOps_ok_inv : ∀ (ops : List Op) (db db1 : RedisState),
    (∀ op ∈ ops, validOp op) → StoreInv db → runOps db ops = .ok db1 →
    StoreInv db1 ∧
    ∀ k, freshKey k → k ∉ storeKeys ops →
      lookupKey db k = none → lookupKey db1 k = none := by
  intro ops
  induction ops with
  | nil =>
    intro db db1 _ hinv h
    rw [runOps] at h
    cases h
    exact ⟨hinv, fun k _ _ hn => hn⟩
  | cons op rest ih =>
    intro db db1 hv hinv h
    rw [runOps] at h
    cases hop : runOp db op with
    | error e => rw [hop] at h; cases h
    | ok db2 =>
      rw [hop] at h
      have step := runOp_ok_inv db op db2 (hv op (by simp)) hinv hop
      have rest_res := ih db2 db1 (fun o ho => hv o (by simp [ho])) step.1 h
      refine ⟨rest_res.1, ?_⟩
      intro k hfk hkeys hnone
      have hk1 : ∀ v, op ≠ .store k v := by
        intro v hve
        apply hkeys
        rw [hve]
        simp [storeKeys, List.filterMap_cons]
      have hkeys2 : k ∉ storeKeys rest := by
        intro hmem
        apply hkeys
        unfold storeKeys at hmem ⊢
        rw [List.filterMap_cons]
        cases hfo : (match op with | .store k _ => some k | _ => none) with
        | none => exact hmem
        | some b => simp [hmem]
      exact rest_res.2 k hfk hkeys2 (step.2 k hfk hk1 hnone)

theorem storeCount_of_counterVal (db : RedisState) (n : Nat)
    (h : lookupKey db counterKey = counterVal n) : storeCount db = n := by
  cases n with
  | zero =>
    have h0 : lookupKey db counterKey = none := by simpa [counterVal] using h
    simp [storeCount, h0]
  | succ m =>
    have h1 : lookupKey db counterKey =
        some (.str (intReprBytes ((m + 1 : Nat) : Int))) := by
      simpa [counterVal] using h
    simp [storeCount, h1, pyIntParse_intRepr]

theorem logEntries_of_listVal (db : RedisState) (k : String) (l : List Bytes)
    (h : lookupKey db k = listVal l) : logEntries db k = l := by
  cases l with
  | nil =>
    have h0 : lookupKey db k = none := by simpa [listVal] using h
    simp [logEntries, h0]
  | cons x xs =>
    have h1 : lookupKey db k = some (.list (x :: xs)) := by simpa [listVal] using h
    simp [logEntries, h1]

/-- The operation sequence of `N` consecutive `store` calls, each with its
drawn UUID key and value. -/
def storeOps (calls : List (String × Value)) : List Op :=
  calls.map (fun c => .store c.1 c.2)

theorem runStores_spec : ∀ (calls : List (String × Value)) (db : RedisState)
    (n : Nat) (ins outs : List Bytes),
    (∀ c ∈ calls, freshKey c.1) →
    (n : Int) + calls.length ≤ int64Max →
    lookupKey db counterKey = counterVal n →
    lookupKey db inputsKey = listVal ins →
    lookupKey db outputsKey = listVal outs →
    ∃ db1, runOps db (storeOps calls) = .ok db1 ∧
      lookupKey db1 counterKey = counterVal (n + calls.length) ∧
      lookupKey db1 inputsKey =
        listVal (ins ++ calls.map (fun c => utf8Encode (pyStrArgs1 c.2))) ∧
      lookupKey db1 outputsKey =
        listVal (outs ++ calls.map (fun c => utf8Encode c.1)) := by
  intro calls
  induction calls with
  | nil =>
    intro db n ins outs _ _ hc hi ho
    exact ⟨db, rfl, by simpa using hc, by simpa using hi, by simpa using ho⟩
  | cons c rest ih =>
    intro db n ins outs hv hb hc hi ho
    have hlen : ((c :: rest).length : Int) = (rest.length : Int) + 1 := by
      simp only [List.length_cons]
      push_cast
      ring
    rw [hlen] at hb
    have hbstep : (n : Int) + 1 ≤ int64Max := by omega
    have hst := store_step db c.1 c.2 n ins outs (hv c (by simp)) hc hi ho hbstep
    obtain ⟨pc, pi, po, pk, pframe⟩ :=
      storePost_lookup db c.1 c.2 n ins outs (hv c (by simp))
    have hb2 : ((n + 1 : Nat) : Int) + rest.length ≤ int64Max := by
      push_cast
      omega
    obtain ⟨db1, hrun, h1, h2, h3⟩ :=
      ih (storePost db c.1 c.2 n ins outs) (n + 1)
        (ins ++ [utf8Encode (pyStrArgs1 c.2)]) (outs ++ [utf8Encode c.1])
        (fun x hx => hv x (by simp [hx])) hb2 pc pi po
    refine ⟨db1, ?_, ?_, ?_, ?_⟩
    · show runOps db (.store c.1 c.2 :: storeOps rest) = .ok db1
      rw [runOps, runOp, hst]
      exact hrun
    · rw [show n + (c :: rest).length = n + 1 + rest.length from by simp; omega]
      exact h1
    · rw [List.map_cons,
        show ins ++ (utf8Encode (pyStrArgs1 c.2) ::
            rest.map (fun x => utf8Encode (pyStrArgs1 x.2))) =
          (ins ++ [utf8Encode (pyStrArgs1 c.2)]) ++
            rest.map (fun x => utf8Encode (pyStrArgs1 x.2)) from by simp]
      exact h2
    · rw [List.map_cons,
        show outs ++ (utf8Encode c.1 :: rest.map (fun x => utf8Encode x.1)) =
          (outs ++ [utf8Encode c.1]) ++ rest.map (fun x => utf8Encode x.1) from by simp]
      exact h3

/-! ## Inverting a successful store on an arbitrary database -/

theorem incr_ok_shape (db : RedisState) (k : String) (m : Int) (db2 : RedisState)
    (h : redisIncr db k = .ok (m, db2)) :
    db2 = redisSet db k (.str (intReprBytes m)) := by
  unfold redisIncr at h
  cases hl : lookupKey db k with
  | none => rw [hl] at h; cases h; rfl
  | some rv =>
    cases rv with
    | str b =>
      rw [hl] at h
      dsimp only at h
      cases hp : redisParseInt b with
      | none => rw [hp] at h; cases h
      | some n0 =>
        rw [hp] at h
        dsimp only at h
        by_cases ho : n0 + 1 > int64Max
        · rw [if_pos ho] at h; cases h
        · rw [if_neg ho] at h; cases h; rfl
    | list l => rw [hl] at h; cases h

/-- A successful `INCR` never decreases the observed counter value. -/
theorem incr_ok_count (db : RedisState) (m : Int) (db2 : RedisState)
    (h : redisIncr db counterKey = .ok (m, db2)) : storeCount db ≤ m := by
  unfold redisIncr at h
  cases hl : lookupKey db counterKey with
  | none =>
    rw [hl] at h
    cases h
    simp [storeCount, hl]
  | some rv =>
    cases rv with
    | str b =>
      rw [hl] at h
      dsimp only at h
      cases hp : redisParseInt b with
      | none => rw [hp] at h; cases h
      | some n0 =>
        rw [hp] at h
        dsimp only at h
        by_cases hov : n0 + 1 > int64Max
        · rw [if_pos hov] at h; cases h
        · rw [if_neg hov] at h
          cases h
          have hcanon : b = intReprBytes n0 := by
            unfold redisParseInt at hp
            cases hpp : redisPlainParse b with
            | none => rw [hpp] at hp; cases hp
            | some n1 =>
              rw [hpp] at hp
              dsimp only at hp
              by_cases hc : b = intReprBytes n1 ∧ int64Min ≤ n1 ∧ n1 ≤ int64Max
              · rw [if_pos hc] at hp
                cases hp
                exact hc.1
              · rw [if_neg hc] at hp; cases hp
          rw [storeCount, hl, hcanon]
          dsimp only
          rw [pyIntParse_intRepr]
          simp only [Option.getD_some]
          omega
    | list l => rw [hl] at h; cases h

theorem rpush_ok_shape (db : RedisState) (k : String) (b : Bytes) (m : Nat)
    (db2 : RedisState) (h : redisRpush db k b = .ok (m, db2)) :
    ∃ l, db2 = redisSet db k (.list l) := by
  unfold redisRpush at h
  cases hl : lookupKey db k with
  | none => rw [hl] at h; cases h; exact ⟨[b], rfl⟩
  | some rv =>
    cases rv with
    | str s => rw [hl] at h; cases h
    | list l => rw [hl] at h; cases h; exact ⟨l ++ [b], rfl⟩

theorem store_ok_decomp (db db1 : RedisState) (key r : String) (v : Value)
    (h : Cache.store db key v = .ok (r, db1)) :
    r = key ∧ key ≠ outputsKey ∧ ∃ (m : Int) (lin lout : List Bytes),
      redisIncr db counterKey = .ok (m, redisSet db counterKey (.str (intReprBytes m))) ∧
      db1 = redisSet
        (redisSet
          (redisSet (redisSet db counterKey (.str (intReprBytes m)))
            inputsKey (.list lin))
          key (.str (redisEncode v)))
        outputsKey (.list lout) := by
  unfold Cache.store at h
  cases hI : redisIncr db counterKey with
  | error e => rw [hI] at h; cases h
  | ok p1 =>
    obtain ⟨m1, dbA⟩ := p1
    have hA : dbA = redisSet db counterKey (.str (intReprBytes m1)) :=
      incr_ok_shape db counterKey m1 dbA hI
    rw [hI] at h
    dsimp only at h
    cases hR1 : redisRpush dbA inputsKey (utf8Encode (pyStrArgs1 v)) with
    | error e => rw [hR1] at h; cases h
    | ok p2 =>
      obtain ⟨m2, dbB⟩ := p2
      obtain ⟨lin, hB⟩ := rpush_ok_shape _ _ _ _ _ hR1
      rw [hR1] at h
      dsimp only at h
      cases hR2 : redisRpush (redisSet dbB key (.str (redisEncode v))) outputsKey
          (utf8Encode key) with
      | error e => rw [hR2] at h; cases h
      | ok p3 =>
        obtain ⟨m3, dbD⟩ := p3
        obtain ⟨lout, hD⟩ := rpush_ok_shape _ _ _ _ _ hR2
        rw [hR2] at h
        simp only [Except.ok.injEq, Prod.mk.injEq] at h
        obtain ⟨hr, hdb⟩ := h
        have hkeyne : key ≠ outputsKey := by
          intro he
          unfold redisRpush at hR2
          rw [← he, lookupKey_set_self] at hR2
          cases hR2
        refine ⟨hr.symm, hkeyne, m1, lin, lout, by rw [hA], ?_⟩
        rw [← hdb, hD, hB, hA]

theorem store_ok_lookup (db db1 : RedisState) (key r : String) (v : Value)
    (h : Cache.store db key v = .ok (r, db1)) :
    r = key ∧ lookupKey db1 key = some (.str (redisEncode v)) := by
  obtain ⟨hr, hne, m, lin, lout, hI, hdb⟩ := store_ok_decomp db db1 key r v h
  refine ⟨hr, ?_⟩
  rw [hdb, lookupKey_set_ne _ _ _ _ hne, lookupKey_set_self]

/-! ## The claims -/

/-- C1: for every value `v` of a supported scalar type, a completed
`store(v)` followed by `get` on the returned key with no decoder yields
exactly the canonical byte encoding of `v` (UTF-8 bytes for text, the raw
bytes for a blob, decimal ASCII for an integer, the `repr` bytes for a
float). -/
theorem store_get_roundtrip (db db1 : RedisState) (key r : String) (v : Value)
    (h : Cache.store db key v = .ok (r, db1)) :
    Cache.get db1 r = .ok (some (redisEncode v)) := by
  obtain ⟨hr, hlk⟩ := store_ok_lookup db db1 key r v h
  subst hr
  exact redisGet_of_str _ _ _ hlk

def c1db : RedisState :=
  ((Cache.store Cache.initState "k-c1" (Value.int 42)).toOption.map Prod.snd).getD []

theorem store_get_roundtrip_witness :
    Cache.store Cache.initState "k-c1" (Value.int 42) = .ok ("k-c1", c1db) ∧
    Cache.get c1db "k-c1" = .ok (some (redisEncode (Value.int 42))) :=
  ⟨by decide,
    store_get_roundtrip Cache.initState c1db "k-c1" "k-c1" (Value.int 42) (by decide)⟩

/-- C6: `get_str` (the spec calls it `get_text`) round-trips every UTF-8
string through a completed `store`. -/
theorem get_str_roundtrip (db db1 : RedisState) (key r : String) (s : String)
    (h : Cache.store db key (Value.text s) = .ok (r, db1)) :
    Cache.get_str db1 r = .ok (some s) := by
  obtain ⟨hr, hlk⟩ := store_ok_lookup db db1 key r (Value.text s) h
  subst hr
  unfold Cache.get_str Cache.getWith
  rw [redisGet_of_str _ _ _ hlk]
  dsimp only
  unfold pyUtf8Decoder
  rw [show redisEncode (Value.text s) = utf8Encode s from rfl, utf8Decode_utf8Encode]
  rfl

def c6db : RedisState :=
  ((Cache.store Cache.initState "k-c6" (Value.text "héllo")).toOption.map Prod.snd).getD []

theorem get_str_roundtrip_witness :
    Cache.store Cache.initState "k-c6" (Value.text "héllo") = .ok ("k-c6", c6db) ∧
    Cache.get_str c6db "k-c6" = .ok (some "héllo") :=
  ⟨by decide,
    get_str_roundtrip Cache.initState c6db "k-c6" "k-c6" "héllo" (by decide)⟩

/-- C7: `get_int` (the spec calls it `get_integer`) round-trips every
integer through a completed `store`, and on a key holding bytes that are not
a valid base-10 integer it raises the decode error (which propagates to the
caller) instead of returning a value. -/
theorem get_int_roundtrip_and_error :
    (∀ (db db1 : RedisState) (key r : String) (n : Int),
        Cache.store db key (Value.int n) = .ok (r, db1) →
        Cache.get_int db1 r = .ok (some n)) ∧
    (∀ (db : RedisState) (k : String) (b : Bytes),
        lookupKey db k = some (.str b) → pyIntParse b = none →
        Cache.get_int db k =
          .error "ValueError: invalid literal for int with base 10") := by
  constructor
  · intro db db1 key r n h
    obtain ⟨hr, hlk⟩ := store_ok_lookup db db1 key r (Value.int n) h
    subst hr
    unfold Cache.get_int Cache.getWith
    rw [redisGet_of_str _ _ _ hlk]
    dsimp only
    unfold pyIntDecoder
    rw [show redisEncode (Value.int n) = intReprBytes n from rfl, pyIntParse_intRepr]
    rfl
  · intro db k b hlk hparse
    unfold Cache.get_int Cache.getWith
    rw [redisGet_of_str _ _ _ hlk]
    dsimp only
    unfold pyIntDecoder
    rw [hparse]
    rfl

def c7db : RedisState :=
  ((Cache.store Cache.initState "k-c7" (Value.int (-120))).toOption.map Prod.snd).getD []

theorem get_int_roundtrip_and_error_witness :
    (Cache.store Cache.initState "k-c7" (Value.int (-120)) = .ok ("k-c7", c7db) ∧
      Cache.get_int c7db "k-c7" = .ok (some (-120))) ∧
    (lookupKey [("k", RVal.str [102, 111, 111])] "k" = some (.str [102, 111, 111]) ∧
      pyIntParse [102, 111, 111] = none ∧
      Cache.get_int [("k", RVal.str [102, 111, 111])] "k" =
        .error "ValueError: invalid literal for int with base 10") :=
  ⟨⟨by decide,
    get_int_roundtrip_and_error.1 Cache.initState c7db "k-c7" "k-c7" (-120) (by decide)⟩,
   ⟨by decide, by decide,
    get_int_roundtrip_and_error.2 [("k", RVal.str [102, 111, 111])] "k"
      [102, 111, 111] (by decide) (by decide)⟩⟩

/-- C10: the read operations `get`, `get_str` and `get_int` leave the
database unchanged — in particular the store counter and both history logs
are exactly as before (only `store` is instrumented). -/
theorem reads_pure (db db1 : RedisState) (op : Op) (hr : isReadOp op)
    (h : runOp db op = .ok db1) :
    db1 = db ∧ storeCount db1 = storeCount db ∧
    logEntries db1 inputsKey = logEntries db inputsKey ∧
    logEntries db1 outputsKey = logEntries db outputsKey := by
  have he := runOp_read_eq db op db1 hr h
  subst he
  exact ⟨rfl, rfl, rfl, rfl⟩

theorem reads_pure_witness :
    (isReadOp (Op.get "x") ∧ runOp [("k", RVal.str [97])] (Op.get "x") =
      .ok [("k", RVal.str [97])]) ∧
    ([("k", RVal.str [97])] : RedisState) = [("k", RVal.str [97])] ∧
    storeCount [("k", RVal.str [97])] = storeCount [("k", RVal.str [97])] ∧
    logEntries [("k", RVal.str [97])] inputsKey =
      logEntries [("k", RVal.str [97])] inputsKey ∧
    logEntries [("k", RVal.str [97])] outputsKey =
      logEntries [("k", RVal.str [97])] outputsKey :=
  ⟨⟨by decide, by decide⟩,
    reads_pure [("k", RVal.str [97])] [("k", RVal.str [97])] (Op.get "x")
      (by decide) (by decide)⟩

/-- C2: starting from a freshly initialized cache, after every completed
sequence of exactly `N` `store` calls (each drawing a UUID key distinct from
the three instrumentation keys, with `N` inside the 64-bit `INCR` range),
the persistent call counter for `store` equals `N`. -/
theorem count_after_stores (calls : List (String × Value))
    (hv : ∀ c ∈ calls, freshKey c.1)
    (hb : (calls.length : Int) ≤ int64Max) :
    ∃ db1, runOps Cache.initState (storeOps calls) = .ok db1 ∧
      storeCount db1 = calls.length := by
  obtain ⟨db1, hrun, hc, hi, ho⟩ :=
    runStores_spec calls Cache.initState 0 [] [] hv (by simpa using hb) rfl rfl rfl
  refine ⟨db1, hrun, ?_⟩
  have := storeCount_of_counterVal db1 (0 + calls.length) hc
  simpa using this

def c2calls : List (String × Value) := [("k1", Value.text "a"), ("k2", Value.int 7)]

theorem count_after_stores_witness :
    ((∀ c ∈ c2calls, freshKey c.1) ∧ ((c2calls.length : Int) ≤ int64Max)) ∧
    ∃ db1, runOps Cache.initState (storeOps c2calls) = .ok db1 ∧
      storeCount db1 = c2calls.length :=
  ⟨⟨by decide, by decide⟩, count_after_stores c2calls (by decide) (by decide)⟩

/-- C3: starting from a freshly initialized cache, after every completed
sequence of exactly `N` `store` calls the input and output logs for `store`
each have length `N`, and the `i`-th output log entry is (the UTF-8 bytes
of) the key returned by the `i`-th call. -/
theorem history_after_stores (calls : List (String × Value))
    (hv : ∀ c ∈ calls, freshKey c.1)
    (hb : (calls.length : Int) ≤ int64Max) :
    ∃ db1, runOps Cache.initState (storeOps calls) = .ok db1 ∧
      (logEntries db1 inputsKey).length = calls.length ∧
      (logEntries db1 outputsKey).length = calls.length ∧
      ∀ i : Nat, (logEntries db1 outputsKey)[i]? =
        (calls[i]?).map (fun c => utf8Encode c.1) := by
  obtain ⟨db1, hrun, hc, hi, ho⟩ :=
    runStores_spec calls Cache.initState 0 [] [] hv (by simpa using hb) rfl rfl rfl
  have hin : logEntries db1 inputsKey =
      calls.map (fun c => utf8Encode (pyStrArgs1 c.2)) := by
    simpa using logEntries_of_listVal db1 inputsKey _ hi
  have hout : logEntries db1 outputsKey = calls.map (fun c => utf8Encode c.1) := by
    simpa using logEntries_of_listVal db1 outputsKey _ ho
  refine ⟨db1, hrun, ?_, ?_, ?_⟩
  · rw [hin, List.length_map]
  · rw [hout, List.length_map]
  · intro i
    rw [hout, List.getElem?_map]

def c3calls : List (String × Value) := [("k3a", Value.text "x"), ("k3b", Value.blob [0, 255])]

theorem history_after_stores_witness :
    ((∀ c ∈ c3calls, freshKey c.1) ∧ ((c3calls.length : Int) ≤ int64Max)) ∧
    ∃ db1, runOps Cache.initState (storeOps c3calls) = .ok db1 ∧
      (logEntries db1 inputsKey).length = c3calls.length ∧
      (logEntries db1 outputsKey).length = c3calls.length ∧
      ∀ i : Nat, (logEntries db1 outputsKey)[i]? =
        (c3calls[i]?).map (fun c => utf8Encode c.1) :=
  ⟨⟨by decide, by decide⟩, history_after_stores c3calls (by decide) (by decide)⟩

/-- C4: after any completed sequence of cache operations (stores drawing
fresh UUID keys, reads, re-initializations), the input and output logs of
`store` have equal length — every input append is paired with an output
append. -/
theorem logs_equal_length (ops : List Op) (db1 : RedisState)
    (hv : ∀ op ∈ ops, validOp op)
    (h : runOps Cache.initState ops = .ok db1) :
    (logEntries db1 inputsKey).length = (logEntries db1 outputsKey).length := by
  obtain ⟨⟨n, ins, outs, hli, hlo, hc, hi, ho⟩, -⟩ :=
    runOps_ok_inv ops Cache.initState db1 hv storeInv_init h
  rw [logEntries_of_listVal _ _ _ hi, logEntries_of_listVal _ _ _ ho, hli, hlo]

def c4ops : List Op :=
  [Op.store "k1" (Value.text "a"), Op.get "k1", Op.init, Op.store "k2" (Value.int 5)]

def c4db : RedisState := (runOps Cache.initState c4ops).toOption.getD []

theorem logs_equal_length_witness :
    ((∀ op ∈ c4ops, validOp op) ∧ runOps Cache.initState c4ops = .ok c4db) ∧
    (logEntries c4db inputsKey).length = (logEntries c4db outputsKey).length :=
  ⟨⟨by decide, by decide⟩, logs_equal_length c4ops c4db (by decide) (by decide)⟩

/-- C5: after any completed sequence of cache operations, `get` on a key
that no `store` call used (and that is not one of the three instrumentation
keys) returns the explicit absent value rather than raising — with or
without a decoder, and the decoder is never applied (the result is `none`
for every decoder uniformly). -/
theorem get_never_stored (ops : List Op) (db1 : RedisState) (k : String)
    (hv : ∀ op ∈ ops, validOp op)
    (hf : freshKey k)
    (hk : k ∉ storeKeys ops)
    (h : runOps Cache.initState ops = .ok db1) :
    Cache.get db1 k = .ok none ∧
    (∀ (α : Type) (fn : Bytes → Except String α), Cache.getWith db1 k fn = .ok none) ∧
    Cache.get_str db1 k = .ok none ∧ Cache.get_int db1 k = .ok none := by
  obtain ⟨-, habs⟩ := runOps_ok_inv ops Cache.initState db1 hv storeInv_init h
  have hnone : lookupKey db1 k = none := habs k hf hk rfl
  have hwith : ∀ (α : Type) (fn : Bytes → Except String α),
      Cache.getWith db1 k fn = .ok none := by
    intro α fn
    unfold Cache.getWith
    rw [redisGet_of_none db1 k hnone]
  exact ⟨redisGet_of_none db1 k hnone, hwith, hwith String pyUtf8Decoder,
    hwith Int pyIntDecoder⟩

def c5ops : List Op := [Op.store "k1" (Value.text "a")]

def c5db : RedisState := (runOps Cache.initState c5ops).toOption.getD []

theorem get_never_stored_witness :
    ((∀ op ∈ c5ops, validOp op) ∧ freshKey "k2" ∧ "k2" ∉ storeKeys c5ops ∧
      runOps Cache.initState c5ops = .ok c5db) ∧
    Cache.get c5db "k2" = .ok none ∧
    Cache.getWith c5db "k2" pyIntDecoder = .ok none ∧
    Cache.get_str c5db "k2" = .ok none ∧ Cache.get_int c5db "k2" = .ok none :=
  ⟨⟨by decide, by decide, by decide, by decide⟩,
    (get_never_stored c5ops c5db "k2" (by decide) (by decide) (by decide) (by decide)).1,
    (get_never_stored c5ops c5db "k2" (by decide) (by decide) (by decide)
      (by decide)).2.1 Int pyIntDecoder,
    (get_never_stored c5ops c5db "k2" (by decide) (by decide) (by decide)
      (by decide)).2.2.1,
    (get_never_stored c5ops c5db "k2" (by decide) (by decide) (by decide)
      (by decide)).2.2.2⟩

def c8key : String := "a54f9db2-16c5-427e-aca6-32a72a803a32"

def c8db : RedisState :=
  ((Cache.store Cache.initState c8key (Value.text "foo")).toOption.map Prod.snd).getD []

/-- C8 counterexample: in the scenario where `store("foo")` is the only call
after initialization, the single input log entry is `str(("foo",))`, whose
UTF-8 bytes are `[40, 39, 102, 111, 111, 39, 44, 41]` — the representation
of the one-element positional-argument tuple, which contains the stored
value.  It is not `"()"` (bytes `[40, 41]`) nor any empty-argument
representation. -/
theorem scenario_input_log_counterexample :
    Cache.store Cache.initState c8key (Value.text "foo") = .ok (c8key, c8db) ∧
    logEntries c8db inputsKey = [[40, 39, 102, 111, 111, 39, 44, 41]] ∧
    logEntries c8db inputsKey ≠ [utf8Encode "()"] :=
  ⟨by decide, by decide, by decide⟩

/-- C8 amended: in the scenario where `store("foo")` is the only call after
initialization and returns key `k1`: `get(k1)` yields the bytes of `"foo"`,
`get_str(k1)` yields `"foo"`, the store counter equals 1, the input log is
`[str(("foo",))]` (the one-positional-argument tuple representation), and
the output log is `[k1]`. -/
theorem scenario_amended :
    Cache.store Cache.initState c8key (Value.text "foo") = .ok (c8key, c8db) ∧
    Cache.get c8db c8key = .ok (some (utf8Encode "foo")) ∧
    Cache.get_str c8db c8key = .ok (some "foo") ∧
    storeCount c8db = 1 ∧
    logEntries c8db inputsKey = [utf8Encode (pyStrArgs1 (Value.text "foo"))] ∧
    logEntries c8db outputsKey = [utf8Encode c8key] :=
  ⟨by decide, by decide, by decide, by decide, by decide, by decide⟩

def c9db : RedisState :=
  ((Cache.store Cache.initState "k-c9" (Value.text "a")).toOption.map Prod.snd).getD []

/-- C9 counterexample: `initialize` is `Cache.__init__`, which flushes the
database; running it after one `store` call drops the persistent `store`
counter from 1 back to 0, so the counter is not monotonically non-decreasing
across sequences that include `initialize`. -/
theorem counter_monotonic_counterexample :
    runOps Cache.initState [Op.store "k-c9" (Value.text "a")] = .ok c9db ∧
    storeCount c9db = 1 ∧
    runOp c9db Op.init = .ok Cache.initState ∧
    storeCount Cache.initState < storeCount c9db :=
  ⟨by decide, by decide, by decide, by decide⟩

/-- C9 amended: every operation other than `initialize` — a `store` drawing
a fresh UUID key, or any read — never decreases the persistent `store`
counter. -/
theorem counter_monotonic_amended (db db1 : RedisState) (op : Op)
    (hni : op ≠ .init) (hv : validOp op) (h : runOp db op = .ok db1) :
    storeCount db ≤ storeCount db1 := by
  cases op with
  | init => exact absurd rfl hni
  | get k => rw [runOp_read_eq db (.get k) db1 trivial h]
  | get_str k => rw [runOp_read_eq db (.get_str k) db1 trivial h]
  | get_int k => rw [runOp_read_eq db (.get_int k) db1 trivial h]
  | store key v =>
    have hk : freshKey key := hv
    obtain ⟨hk1, hk2, hk3⟩ := hk
    rw [runOp] at h
    cases hst : Cache.store db key v with
    | error e => rw [hst] at h; cases h
    | ok p =>
      obtain ⟨r, db2⟩ := p
      rw [hst] at h
      dsimp only [Except.map] at h
      injection h with h2
      subst h2
      obtain ⟨-, -, m, lin, lout, hI, hdb⟩ := store_ok_decomp db db2 key r v hst
      have hle := incr_ok_count db m _ hI
      have hlook : lookupKey db2 counterKey = some (.str (intReprBytes m)) := by
        rw [hdb, lookupKey_set_ne _ _ _ _ (by decide : counterKey ≠ outputsKey),
          lookupKey_set_ne _ _ _ _ (Ne.symm hk1),
          lookupKey_set_ne _ _ _ _ (by decide : counterKey ≠ inputsKey),
          lookupKey_set_self]
      have hsc : storeCount db2 = m := by
        simp [storeCount, hlook, pyIntParse_intRepr]
      rw [hsc]
      exact hle

def c9wdb : RedisState :=
  (runOp ([] : RedisState) (Op.store "k-c9w" (Value.text "b"))).toOption.getD []

theorem counter_monotonic_amended_witness :
    (Op.store "k-c9w" (Value.text "b") ≠ Op.init ∧
      validOp (Op.store "k-c9w" (Value.text "b")) ∧
      runOp ([] : RedisState) (Op.store "k-c9w" (Value.text "b")) = .ok c9wdb) ∧
    storeCount ([] : RedisState) ≤ storeCount c9wdb :=
  ⟨⟨by decide, by decide, by decide⟩,
    counter_monotonic_amended ([] : RedisState) c9wdb
      (Op.store "k-c9w" (Value.text "b")) (by decide) (by decide) (by decide)⟩
